import Mathlib

/-!
Verification of the employee-dashboard filter pipeline, department
enumerator and CSV export cell serialization, shallowly embedded from
src/project/src/components/EmployeeGrid.tsx.

Strings are Lean strings; the JavaScript operations used by the source
(String.prototype.toLowerCase, String.prototype.trim,
String.prototype.includes, strict equality, Array.prototype.filter,
Array.prototype.some) are embedded as the corresponding Lean operations
on String / List.  Machine numbers in the data set are non-negative
integers (salary, age, id, projectsCompleted) and are embedded as Nat;
performanceRating carries one decimal digit and is embedded exactly as a
count of tenths.  The hire date is embedded as a calendar-date record.
-/

/-- Calendar date for the hireDate field (the source stores an ISO date
string and formats it through the en-US locale; we embed the date as the
triple it denotes). -/
structure HireDate where
  month : Nat
  day : Nat
  year : Nat
deriving DecidableEq, Repr

/-- EmployeeRecord, from src/types/Employee via its use in EmployeeGrid.tsx.
performanceRating is stored as tenths (e.g. 4.5 is 45) so that the
one-decimal display rule stays in exact arithmetic; manager is optional. -/
structure Employee where
  id : Nat
  firstName : String
  lastName : String
  email : String
  department : String
  position : String
  salary : Nat
  hireDate : HireDate
  age : Nat
  location : String
  performanceRating : Nat
  projectsCompleted : Nat
  isActive : Bool
  skills : List String
  manager : Option String
deriving DecidableEq, Repr

/-- Embedding of JavaScript String.prototype.toLowerCase on the ASCII
strings of the data set: each character is lower-cased. -/
def strToLower (s : String) : String :=
  String.mk (s.toList.map Char.toLower)

/-- Embedding of JavaScript String.prototype.trim: leading and trailing
whitespace characters are removed. -/
def jsTrim (s : String) : String :=
  String.mk ((s.toList.dropWhile Char.isWhitespace).reverse.dropWhile Char.isWhitespace).reverse

/-- Does the character list begin with the given needle?  Mirrors the
anchored comparison underlying JavaScript String.prototype.includes. -/
def strStartsWith : List Char → List Char → Bool
  | [], _ => true
  | _ :: _, [] => false
  | a :: as, b :: bs => a == b && strStartsWith as bs

/-- Substring occurrence on character lists: the needle occurs somewhere
(unanchored) in the haystack.  The empty needle occurs in everything,
matching JavaScript semantics. -/
def jsIncludesList (needle : List Char) : List Char → Bool
  | [] => needle.isEmpty
  | c :: cs => strStartsWith needle (c :: cs) || jsIncludesList needle cs

/-- Embedding of JavaScript s.includes(sub): sub occurs as a contiguous
substring anywhere in s. -/
def jsIncludes (s sub : String) : Bool :=
  jsIncludesList sub.toList s.toList

/-- The global-search predicate of EmployeeGrid.tsx lines 256-266: the OR
chain over firstName, lastName, email, department, position, location,
manager (guarded, contributing false when absent) and the skills
elements, each lower-cased before the substring test against the already
lower-cased search text. -/
def matchesSearch (searchLower : String) (emp : Employee) : Bool :=
  jsIncludes (strToLower emp.firstName) searchLower ||
  jsIncludes (strToLower emp.lastName) searchLower ||
  jsIncludes (strToLower emp.email) searchLower ||
  jsIncludes (strToLower emp.department) searchLower ||
  jsIncludes (strToLower emp.position) searchLower ||
  jsIncludes (strToLower emp.location) searchLower ||
  (match emp.manager with
   | some m => jsIncludes (strToLower m) searchLower
   | none => false) ||
  emp.skills.any fun skill => jsIncludes (strToLower skill) searchLower

/-- Department stage, EmployeeGrid.tsx lines 243-245: when the filter is
not the sentinel "All", keep the records whose department is strictly
equal to it. -/
def departmentStage (departmentFilter : String) (data : List Employee) : List Employee :=
  if departmentFilter != "All" then
    data.filter fun emp => emp.department == departmentFilter
  else data

/-- Status stage, EmployeeGrid.tsx lines 248-251: when the filter is not
"All", keep the records whose isActive equals (statusFilter == "Active"). -/
def statusStage (statusFilter : String) (data : List Employee) : List Employee :=
  if statusFilter != "All" then
    let isActive := statusFilter == "Active"
    data.filter fun emp => emp.isActive == isActive
  else data

/-- Search stage, EmployeeGrid.tsx lines 254-267: guarded by the
truthiness of searchText.trim(); the text that is lower-cased and matched
is the original searchText, not the trimmed one. -/
def searchStage (searchText : String) (data : List Employee) : List Employee :=
  if jsTrim searchText != "" then
    let searchLower := strToLower searchText
    data.filter fun emp => matchesSearch searchLower emp
  else data

/-- The filteredData pipeline, EmployeeGrid.tsx lines 239-270: department
stage, then status stage, then search stage, each narrowing the output of
the previous one. -/
def filteredData (records : List Employee) (searchText departmentFilter statusFilter : String) :
    List Employee :=
  searchStage searchText (statusStage statusFilter (departmentStage departmentFilter records))

/-- Search stage as the specification words it (spec section 4.2 stage 3):
the text that is lower-cased and matched is searchText AFTER trimming.
Used only to compare the spec wording with the source. -/
def specSearchStage (searchText : String) (data : List Employee) : List Employee :=
  if jsTrim searchText != "" then
    let q := strToLower (jsTrim searchText)
    data.filter fun emp => matchesSearch q emp
  else data

/-- First-occurrence deduplication, the embedding of spreading a
JavaScript Set built from an array: keeps the first occurrence of every
value, in order of first appearance; seen is the accumulator of values
already emitted. -/
def dedupFirst (seen : List String) : List String → List String
  | [] => []
  | x :: xs => if x ∈ seen then dedupFirst seen xs else x :: dedupFirst (x :: seen) xs

/-- Department enumerator, EmployeeGrid.tsx lines 17-20: distinct
department values of the records, sorted ascending (JavaScript default
sort on strings, i.e. lexicographic and case-sensitive), with the
sentinel "All" prepended. -/
def departments (records : List Employee) : List String :=
  let uniqueDepts := dedupFirst [] (records.map fun emp => emp.department)
  "All" :: uniqueDepts.mergeSort fun a b => decide (a ≤ b)

/-- Comma grouping for the en-US currency format, working over the
reversed digit list: after every three digits (counted from the right) a
comma is inserted. -/
def groupRev : List Char → List Char
  | a :: b :: c :: d :: rest => a :: b :: c :: ',' :: groupRev (d :: rest)
  | l => l

/-- Embedding of Intl.NumberFormat en-US USD with zero fraction digits,
applied to the non-negative integer salaries of the data set: a dollar
sign followed by the decimal digits grouped in threes by commas. -/
def formatCurrencyUSD (n : Nat) : String :=
  "$" ++ String.mk ((groupRev (toString n).toList.reverse).reverse)

/-- Embedding of Date.prototype.toLocaleDateString en-US (short date):
month/day/year without zero padding. -/
def toLocaleDateStringUS (d : HireDate) : String :=
  toString d.month ++ "/" ++ toString d.day ++ "/" ++ toString d.year

/-- Embedding of Number.prototype.toFixed(1) on a rating held as tenths. -/
def toFixed1 (tenths : Nat) : String :=
  toString (tenths / 10) ++ "." ++ toString (tenths % 10)

/-- The grid columns, by field name (EmployeeGrid.tsx columnDefs). -/
inductive GridField
  | id | firstName | lastName | email | department | position | salary
  | hireDate | age | location | performanceRating | projectsCompleted
  | isActive | skills | manager
deriving DecidableEq, Repr

/-- processCellCallback of exportToCsv, EmployeeGrid.tsx lines 277-302:
skills joined by comma-space, isActive rendered Active/Inactive, salary
as en-US currency without decimals, hireDate as en-US short date,
performanceRating fixed to one decimal, every other field passed through
as-is (numbers print as their decimal digits in the CSV text; an absent
manager passes through as the empty cell). -/
def processCell (f : GridField) (emp : Employee) : String :=
  match f with
  | .skills => String.intercalate ", " emp.skills
  | .isActive => if emp.isActive then "Active" else "Inactive"
  | .salary => formatCurrencyUSD emp.salary
  | .hireDate => toLocaleDateStringUS emp.hireDate
  | .performanceRating => toFixed1 emp.performanceRating
  | .id => toString emp.id
  | .firstName => emp.firstName
  | .lastName => emp.lastName
  | .email => emp.email
  | .department => emp.department
  | .position => emp.position
  | .age => toString emp.age
  | .location => emp.location
  | .projectsCompleted => toString emp.projectsCompleted
  | .manager => match emp.manager with | some m => m | none => ""

/-- The haystack string contains the needle as a contiguous substring,
anywhere (the property meant by the specification for search matching). -/
def ContainsSub (hay sub : String) : Prop :=
  ∃ pre post : List Char, hay.toList = pre ++ sub.toList ++ post

/-- Record 1 of the spec section 8 scenario (fields the scenario leaves
unspecified are filled with neutral values). -/
def ann : Employee :=
  { id := 1, firstName := "Ann", lastName := "", email := "",
    department := "HR", position := "", salary := 0,
    hireDate := { month := 1, day := 2, year := 2019 }, age := 30,
    location := "", performanceRating := 40, projectsCompleted := 0,
    isActive := true, skills := ["Excel"], manager := none }

/-- Record 2 of the spec section 8 scenario. -/
def bo : Employee :=
  { id := 2, firstName := "Bo", lastName := "", email := "",
    department := "Eng", position := "", salary := 0,
    hireDate := { month := 1, day := 2, year := 2019 }, age := 30,
    location := "", performanceRating := 40, projectsCompleted := 0,
    isActive := false, skills := ["Go"], manager := some "Ann" }

/-- A record in department Engineering; no field of it contains the
character sequence space-e-n-g. -/
def engineeringRec : Employee :=
  { id := 3, firstName := "Pat", lastName := "Smith", email := "pat@x.com",
    department := "Engineering", position := "Dev", salary := 70000,
    hireDate := { month := 3, day := 4, year := 2021 }, age := 28,
    location := "NY", performanceRating := 35, projectsCompleted := 2,
    isActive := true, skills := ["Go"], manager := none }

/-- A record in department Engineering Support, for the exact-match check
of the department stage. -/
def engSupport : Employee :=
  { id := 4, firstName := "Kim", lastName := "Park", email := "kim@x.com",
    department := "Engineering Support", position := "Support", salary := 60000,
    hireDate := { month := 5, day := 6, year := 2022 }, age := 26,
    location := "LA", performanceRating := 30, projectsCompleted := 1,
    isActive := true, skills := ["Jira"], manager := some "Pat" }

/-- The record of the export scenario: salary 95000, active, skills Go and
Rust, hired 2020-03-15, rating 4.5. -/
def exportRec : Employee :=
  { id := 5, firstName := "Lee", lastName := "Chan", email := "lee@x.com",
    department := "Engineering", position := "Dev", salary := 95000,
    hireDate := { month := 3, day := 15, year := 2020 }, age := 33,
    location := "SF", performanceRating := 45, projectsCompleted := 7,
    isActive := true, skills := ["Go", "Rust"], manager := some "Pat" }

/-- Conditional filter: the shape shared by the three pipeline stages. -/
def condFilter (c : Bool) (p : Employee → Bool) (l : List Employee) : List Employee :=
  if c then l.filter p else l

/-- The conjunction of the three stage predicates, with a vacuously true
conjunct for every disabled stage. -/
def pipelinePred (searchText departmentFilter statusFilter : String) (emp : Employee) : Bool :=
  (departmentFilter == "All" || emp.department == departmentFilter) &&
  (statusFilter == "All" || emp.isActive == (statusFilter == "Active")) &&
  (jsTrim searchText == "" || matchesSearch (strToLower searchText) emp)

theorem departmentStage_eq_condFilter (d : String) (l : List Employee) :
    departmentStage d l = condFilter (d != "All") (fun emp => emp.department == d) l := rfl

theorem statusStage_eq_condFilter (t : String) (l : List Employee) :
    statusStage t l = condFilter (t != "All") (fun emp => emp.isActive == (t == "Active")) l := rfl

theorem searchStage_eq_condFilter (s : String) (l : List Employee) :
    searchStage s l = condFilter (jsTrim s != "") (fun emp => matchesSearch (strToLower s) emp) l := rfl

theorem condFilter_eq_filter (c : Bool) (p : Employee → Bool) (l : List Employee) :
    condFilter c p l = l.filter fun x => !c || p x := by
  cases c
  · simp [condFilter]
  · simp [condFilter]

theorem filteredData_eq_filter (records : List Employee) (s d t : String) :
    filteredData records s d t = records.filter (pipelinePred s d t) := by
  rw [filteredData, departmentStage_eq_condFilter, statusStage_eq_condFilter,
      searchStage_eq_condFilter, condFilter_eq_filter, condFilter_eq_filter,
      condFilter_eq_filter, List.filter_filter, List.filter_filter]
  refine List.filter_congr fun x _ => ?_
  simp only [pipelinePred, bne, Bool.not_not]
  cases jsTrim s == "" <;> cases d == "All" <;> cases t == "All" <;>
    cases x.department == d <;> cases matchesSearch (strToLower s) x <;>
    cases x.isActive == (t == "Active") <;> rfl

theorem departmentStage_all (l : List Employee) : departmentStage "All" l = l := by
  have h : (("All" : String) != "All") = false := by decide
  simp [departmentStage, h]

theorem statusStage_all (l : List Employee) : statusStage "All" l = l := by
  have h : (("All" : String) != "All") = false := by decide
  simp [statusStage, h]

theorem departmentStage_ne (l : List Employee) (d : String) (h : d ≠ "All") :
    departmentStage d l = l.filter fun emp => emp.department == d := by
  have hc : (d != "All") = true := bne_iff_ne.mpr h
  simp [departmentStage, hc]

theorem statusStage_ne (l : List Employee) (t : String) (h : t ≠ "All") :
    statusStage t l = l.filter fun emp => emp.isActive == (t == "Active") := by
  have hc : (t != "All") = true := bne_iff_ne.mpr h
  simp [statusStage, hc]

theorem searchStage_ne (l : List Employee) (s : String) (h : jsTrim s ≠ "") :
    searchStage s l = l.filter fun emp => matchesSearch (strToLower s) emp := by
  have hc : (jsTrim s != "") = true := bne_iff_ne.mpr h
  simp [searchStage, hc]

theorem strStartsWith_iff (needle hay : List Char) :
    strStartsWith needle hay = true ↔ ∃ rest, hay = needle ++ rest := by
  induction needle generalizing hay with
  | nil => simp [strStartsWith]
  | cons a as ih =>
    cases hay with
    | nil => simp [strStartsWith]
    | cons b bs =>
      simp only [strStartsWith, Bool.and_eq_true, beq_iff_eq, ih]
      constructor
      · rintro ⟨rfl, rest, rfl⟩
        exact ⟨rest, by simp⟩
      · rintro ⟨rest, h⟩
        rw [List.cons_append] at h
        injection h with h1 h2
        exact ⟨h1.symm, rest, h2⟩

theorem jsIncludesList_iff (needle hay : List Char) :
    jsIncludesList needle hay = true ↔ ∃ pre post, hay = pre ++ needle ++ post := by
  induction hay with
  | nil =>
    simp only [jsIncludesList, List.isEmpty_iff]
    constructor
    · rintro rfl
      exact ⟨[], [], rfl⟩
    · rintro ⟨pre, post, h⟩
      rcases List.append_eq_nil.mp h.symm with ⟨h1, h2⟩
      rcases List.append_eq_nil.mp h1 with ⟨h3, h4⟩
      exact h4
  | cons c cs ih =>
    simp only [jsIncludesList, Bool.or_eq_true, strStartsWith_iff, ih]
    constructor
    · rintro (⟨rest, h⟩ | ⟨pre, post, h⟩)
      · exact ⟨[], rest, by simpa using h⟩
      · exact ⟨c :: pre, post, by simp [h]⟩
    · rintro ⟨pre, post, h⟩
      cases pre with
      | nil => exact Or.inl ⟨post, by simpa using h⟩
      | cons p ps =>
        rw [List.cons_append, List.cons_append] at h
        injection h with h1 h2
        subst h1
        exact Or.inr ⟨ps, post, h2⟩

theorem jsIncludes_iff (s sub : String) : jsIncludes s sub = true ↔ ContainsSub s sub :=
  jsIncludesList_iff sub.toList s.toList

theorem matchesSearch_iff (q : String) (emp : Employee) :
    matchesSearch q emp = true ↔
      (ContainsSub (strToLower emp.firstName) q ∨
       ContainsSub (strToLower emp.lastName) q ∨
       ContainsSub (strToLower emp.email) q ∨
       ContainsSub (strToLower emp.department) q ∨
       ContainsSub (strToLower emp.position) q ∨
       ContainsSub (strToLower emp.location) q ∨
       (∃ m, emp.manager = some m ∧ ContainsSub (strToLower m) q) ∨
       (∃ skill ∈ emp.skills, ContainsSub (strToLower skill) q)) := by
  rw [matchesSearch]
  cases hm : emp.manager with
  | none =>
    simp only [Bool.or_eq_true, jsIncludes_iff, List.any_eq_true, hm]
    simp only [reduceCtorEq, false_and, exists_false, false_or]
    tauto
  | some m =>
    simp only [Bool.or_eq_true, jsIncludes_iff, List.any_eq_true, hm, Option.some.injEq,
      exists_eq_left']
    tauto

theorem mem_dedupFirst (a : String) (seen l : List String) :
    a ∈ dedupFirst seen l ↔ a ∈ l ∧ a ∉ seen := by
  induction l generalizing seen with
  | nil => simp [dedupFirst]
  | cons x xs ih =>
    rw [dedupFirst]
    by_cases hx : x ∈ seen
    · rw [if_pos hx, ih]
      simp only [List.mem_cons]
      constructor
      · rintro ⟨h1, h2⟩
        exact ⟨Or.inr h1, h2⟩
      · rintro ⟨h1 | h1, h2⟩
        · subst h1
          exact absurd hx h2
        · exact ⟨h1, h2⟩
    · rw [if_neg hx]
      simp only [List.mem_cons, ih, not_or]
      constructor
      · rintro (rfl | ⟨h1, h2, h3⟩)
        · exact ⟨Or.inl rfl, hx⟩
        · exact ⟨Or.inr h1, h3⟩
      · rintro ⟨h1 | h1, h2⟩
        · exact Or.inl h1
        · by_cases hax : a = x
          · exact Or.inl hax
          · exact Or.inr ⟨h1, hax, h2⟩

theorem nodup_dedupFirst (seen l : List String) : (dedupFirst seen l).Nodup := by
  induction l generalizing seen with
  | nil => simp [dedupFirst]
  | cons x xs ih =>
    rw [dedupFirst]
    by_cases hx : x ∈ seen
    · rw [if_pos hx]
      exact ih seen
    · rw [if_neg hx]
      refine List.nodup_cons.mpr ⟨?_, ih (x :: seen)⟩
      intro hmem
      exact ((mem_dedupFirst x (x :: seen) xs).mp hmem).2 (List.mem_cons_self x seen)

/-- C1: counterexample to the claim as stated.  With search text " eng"
(a leading space), the trimmed text "eng" is non-empty and the record in
department "Engineering" satisfies the claimed predicate (its lower-cased
department contains the lower-cased trimmed text), yet the source, which
matches against the lower-cased UNTRIMMED text " eng", drops the record;
the stage built from the spec wording keeps it. -/
theorem C1_search_trim_counterexample :
    jsTrim " eng" ≠ "" ∧
    matchesSearch (strToLower (jsTrim " eng")) engineeringRec = true ∧
    searchStage " eng" [engineeringRec] = [] ∧
    specSearchStage " eng" [engineeringRec] = [engineeringRec] :=
  ⟨by decide, by decide, by decide, by decide⟩

/-- C1 (amended): if searchText is non-empty after trimming, the search
stage lower-cases the ORIGINAL (untrimmed) searchText and keeps exactly
the records for which at least one of firstName, lastName, email,
department, position, location, manager (skipped when absent) or some
element of skills, each lower-cased, contains that untrimmed lower-cased
text as a contiguous substring anywhere in the field. -/
theorem C1_search_untrimmed_exact (l : List Employee) (s : String) (h : jsTrim s ≠ "")
    (emp : Employee) :
    emp ∈ searchStage s l ↔ emp ∈ l ∧
      (ContainsSub (strToLower emp.firstName) (strToLower s) ∨
       ContainsSub (strToLower emp.lastName) (strToLower s) ∨
       ContainsSub (strToLower emp.email) (strToLower s) ∨
       ContainsSub (strToLower emp.department) (strToLower s) ∨
       ContainsSub (strToLower emp.position) (strToLower s) ∨
       ContainsSub (strToLower emp.location) (strToLower s) ∨
       (∃ m, emp.manager = some m ∧ ContainsSub (strToLower m) (strToLower s)) ∨
       (∃ skill ∈ emp.skills, ContainsSub (strToLower skill) (strToLower s))) := by
  rw [searchStage_ne l s h, List.mem_filter, matchesSearch_iff]

/-- Witness for the amended C1: searching "eng" keeps the record whose
department is "Engineering". -/
theorem C1_search_untrimmed_exact_witness :
    jsTrim "eng" ≠ "" ∧
    (engineeringRec ∈ searchStage "eng" [engineeringRec] ↔
      engineeringRec ∈ [engineeringRec] ∧
      (ContainsSub (strToLower engineeringRec.firstName) (strToLower "eng") ∨
       ContainsSub (strToLower engineeringRec.lastName) (strToLower "eng") ∨
       ContainsSub (strToLower engineeringRec.email) (strToLower "eng") ∨
       ContainsSub (strToLower engineeringRec.department) (strToLower "eng") ∨
       ContainsSub (strToLower engineeringRec.position) (strToLower "eng") ∨
       ContainsSub (strToLower engineeringRec.location) (strToLower "eng") ∨
       (∃ m, engineeringRec.manager = some m ∧ ContainsSub (strToLower m) (strToLower "eng")) ∨
       (∃ skill ∈ engineeringRec.skills, ContainsSub (strToLower skill) (strToLower "eng")))) :=
  ⟨by decide, C1_search_untrimmed_exact [engineeringRec] "eng" (by decide) engineeringRec⟩

/-- C2: with the default filter state — empty search text, department
filter "All", status filter "All" — the pipeline returns the full input
sequence unchanged. -/
theorem C2_default_state_identity (records : List Employee) :
    filteredData records "" "All" "All" = records := by
  have h1 : (jsTrim "" != "") = false := by decide
  have h2 : (("All" : String) != "All") = false := by decide
  simp [filteredData, searchStage, statusStage, departmentStage, h1, h2]

/-- C3: for any department filter value other than "All" the department
stage keeps exactly the records whose department equals the filter value
exactly and case-sensitively (no substring matching). -/
theorem C3_department_exact (l : List Employee) (d : String) (h : d ≠ "All") :
    departmentStage d l = (l.filter fun emp => emp.department == d) ∧
    ∀ emp, emp ∈ departmentStage d l ↔ emp ∈ l ∧ emp.department = d := by
  have he := departmentStage_ne l d h
  refine ⟨he, fun emp => ?_⟩
  rw [he]
  simp [List.mem_filter]

/-- Witness for C3 at filter value "Engineering": a record in department
"Engineering Support" is not kept. -/
theorem C3_department_exact_witness :
    (("Engineering" : String) ≠ "All" ∧
      (departmentStage "Engineering" [engSupport] =
          ([engSupport].filter fun emp => emp.department == "Engineering") ∧
        ∀ emp, emp ∈ departmentStage "Engineering" [engSupport] ↔
          emp ∈ [engSupport] ∧ emp.department = "Engineering")) ∧
    departmentStage "Engineering" [engSupport] = [] :=
  ⟨⟨by decide, C3_department_exact [engSupport] "Engineering" (by decide)⟩, by decide⟩

/-- C4: for any status filter value other than "All" the status stage
computes wantActive as (statusFilter == "Active") and keeps exactly the
records whose isActive equals it. -/
theorem C4_status_stage (l : List Employee) (t : String) (h : t ≠ "All") :
    statusStage t l = (l.filter fun emp => emp.isActive == (t == "Active")) ∧
    ∀ emp, emp ∈ statusStage t l ↔ emp ∈ l ∧ emp.isActive = (t == "Active") := by
  have he := statusStage_ne l t h
  refine ⟨he, fun emp => ?_⟩
  rw [he]
  simp [List.mem_filter]

/-- Witness for C4 at status filter "Active" together with the section 8
scenario: on the two-record sequence the pipeline keeps only record 1. -/
theorem C4_status_stage_witness :
    (("Active" : String) ≠ "All" ∧
      (statusStage "Active" [ann, bo] =
          ([ann, bo].filter fun emp => emp.isActive == ("Active" == "Active")) ∧
        ∀ emp, emp ∈ statusStage "Active" [ann, bo] ↔
          emp ∈ [ann, bo] ∧ emp.isActive = ("Active" == "Active"))) ∧
    filteredData [ann, bo] "" "All" "Active" = [ann] :=
  ⟨⟨by decide, C4_status_stage [ann, bo] "Active" (by decide)⟩, by decide⟩

/-- C5: the pipeline output is a subsequence of its input, so the
relative order of the surviving records is exactly their order in the
input sequence; the pipeline is a plain function of its four arguments,
hence pure and deterministic. -/
theorem C5_order_preservation (records : List Employee) (s d t : String) :
    (filteredData records s d t).Sublist records := by
  rw [filteredData_eq_filter]
  exact List.filter_sublist records

/-- C6: the pipeline is idempotent: running it again on its own output
with the same search text, department filter and status filter changes
nothing. -/
theorem C6_filter_idempotent (records : List Employee) (s d t : String) :
    filteredData (filteredData records s d t) s d t = filteredData records s d t := by
  rw [filteredData_eq_filter records, filteredData_eq_filter, List.filter_filter]
  exact List.filter_congr fun x _ => Bool.and_self _

/-- C7: the department enumerator returns "All" followed by the distinct
department values of the records, sorted lexicographically (ascending,
case-sensitive): the tail is sorted, duplicate-free, and holds exactly
the department values occurring in the records. -/
theorem C7_departments_enumerator (records : List Employee) :
    ∃ tail, departments records = "All" :: tail ∧
      List.Sorted (fun a b : String => a ≤ b) tail ∧
      tail.Nodup ∧
      ∀ x, x ∈ tail ↔ x ∈ records.map fun emp => emp.department := by
  refine ⟨_, rfl, ?_, ?_, ?_⟩
  · refine List.Pairwise.imp (fun h => of_decide_eq_true h)
      (List.sorted_mergeSort ?_ ?_ (dedupFirst [] (records.map fun emp => emp.department)))
    · intro a b c hab hbc
      exact decide_eq_true (le_trans (of_decide_eq_true hab) (of_decide_eq_true hbc))
    · intro a b
      simpa using le_total a b
  · exact ((List.mergeSort_perm _ _).nodup_iff).mpr (nodup_dedupFirst _ _)
  · intro x
    rw [List.mem_mergeSort, mem_dedupFirst]
    simp

/-- C8: a record whose manager is absent never matches the search through
the manager field and never causes an error: its search outcome is
exactly the OR of the remaining fields (the pipeline itself is a total
function by construction). -/
theorem C8_manager_absent (emp : Employee) (q : String) (h : emp.manager = none) :
    matchesSearch q emp =
      (jsIncludes (strToLower emp.firstName) q ||
       jsIncludes (strToLower emp.lastName) q ||
       jsIncludes (strToLower emp.email) q ||
       jsIncludes (strToLower emp.department) q ||
       jsIncludes (strToLower emp.position) q ||
       jsIncludes (strToLower emp.location) q ||
       (emp.skills.any fun skill => jsIncludes (strToLower skill) q)) := by
  simp only [matchesSearch, h, Bool.or_false]

/-- Witness for C8: the manager-less record of the section 8 scenario. -/
theorem C8_manager_absent_witness :
    ann.manager = none ∧
    matchesSearch "ann" ann =
      (jsIncludes (strToLower ann.firstName) "ann" ||
       jsIncludes (strToLower ann.lastName) "ann" ||
       jsIncludes (strToLower ann.email) "ann" ||
       jsIncludes (strToLower ann.department) "ann" ||
       jsIncludes (strToLower ann.position) "ann" ||
       jsIncludes (strToLower ann.location) "ann" ||
       (ann.skills.any fun skill => jsIncludes (strToLower skill) "ann")) :=
  ⟨rfl, C8_manager_absent ann "ann" rfl⟩

/-- C9: the export cell serialization joins skills with comma-space,
renders isActive as Active/Inactive, formats salary as en-US currency
without decimals, formats hireDate as the en-US short date, fixes
performanceRating to one decimal place, and passes other fields through;
on the scenario record with salary 95000, active, skills Go and Rust the
cells are exactly as the spec states. -/
theorem C9_export_serialization :
    processCell .salary exportRec = "$95,000" ∧
    processCell .isActive exportRec = "Active" ∧
    processCell .skills exportRec = "Go, Rust" ∧
    processCell .hireDate exportRec = "3/15/2020" ∧
    processCell .performanceRating exportRec = "4.5" ∧
    (∀ emp : Employee, processCell .skills emp = String.intercalate ", " emp.skills) ∧
    (∀ emp : Employee,
      processCell .isActive emp = if emp.isActive then "Active" else "Inactive") ∧
    (∀ emp : Employee, processCell .salary emp = formatCurrencyUSD emp.salary) ∧
    (∀ emp : Employee, processCell .firstName emp = emp.firstName) :=
  ⟨by decide, by decide, by decide, by decide, by decide,
    fun _ => rfl, fun _ => rfl, fun _ => rfl, fun _ => rfl⟩

/-- C10: for every status filter value that is neither "All" nor
"Active" the stage keeps exactly the records with isActive false, i.e.
any unrecognized non-"All" value behaves like "Inactive". -/
theorem C10_unrecognized_status (l : List Employee) (t : String) (h1 : t ≠ "All")
    (h2 : t ≠ "Active") :
    statusStage t l = l.filter fun emp => emp.isActive == false := by
  rw [statusStage_ne l t h1]
  have hf : (t == "Active") = false := by
    simp [h2]
  rw [hf]

/-- Witness for C10 at the lower-cased value "active": it keeps exactly
the inactive record of the section 8 scenario. -/
theorem C10_unrecognized_status_witness :
    (("active" : String) ≠ "All" ∧ ("active" : String) ≠ "Active" ∧
      statusStage "active" [ann, bo] = ([ann, bo].filter fun emp => emp.isActive == false)) ∧
    statusStage "active" [ann, bo] = [bo] :=
  ⟨⟨by decide, by decide,
      C10_unrecognized_status [ann, bo] "active" (by decide) (by decide)⟩, by decide⟩
